import Mathlib

/-!
Verification of `finetune/base.py` (class `BaseModel`): a shallow embedding of
the array encoder, the pretrained-weight loader, the training-loop validation
window, graph-construction flags, text generation and model persistence,
together with theorems settling the specified properties.

Machine floats are modelled as rationals; the IEEE value `inf` used by the
training loop is modelled as the top element of `WithTop ℚ` (so `inf + x = inf`,
`inf / n = inf`, `inf ≤ inf` — matching the float semantics the loop relies on).
Token ids are modelled as integers.  External collaborators (tokenizer, numpy
random draws, TensorFlow session) are passed in as explicit parameters.
-/

namespace Finetune

/-- Embedding of the numpy 1-D slice assignment `a[lo:hi] = v`, walking the
array with the current index `j0`.  Used for `mask[i, 1:seq_length] = 1` in
`_array_format`. -/
def sliceSetFrom (j0 lo hi : ℕ) (v : ℚ) : List ℚ → List ℚ
  | [] => []
  | x :: xs => (if lo ≤ j0 ∧ j0 < hi then v else x) :: sliceSetFrom (j0 + 1) lo hi v xs

/-- Numpy slice assignment `a[lo:hi] = v` on a 1-D float array. -/
def sliceSet (l : List ℚ) (lo hi : ℕ) (v : ℚ) : List ℚ :=
  sliceSetFrom 0 lo hi v l

/-- One mask row of `_array_format`: `mask = np.zeros(max_length)` followed by
`mask[1:seq_length] = 1` (base.py lines 365, 372). -/
def maskRow (maxLength seqLength : ℕ) : List ℚ :=
  sliceSet (List.replicate maxLength 0) 1 seqLength 1

/-- One token-id row of `_array_format`: channel 0 is `np.zeros` overwritten on
`[:seq_length]` with the byte-pair ids, channel 1 is
`np.arange(vocab_size, vocab_size + max_length)` (base.py lines 364, 370, 376). -/
def xRow (vocabSize maxLength : ℕ) (seq : List ℤ) : List (ℤ × ℤ) :=
  (List.range maxLength).map fun j => (seq.getD j 0, (vocabSize : ℤ) + j)

/-- The part of `ArrayEncodedOutput` that `_array_format` computes and the rest
of the class consumes: the two-channel token array and the loss mask. -/
structure ArrayOutput where
  tokenIds : List (List (ℤ × ℤ))
  mask : List (List ℚ)
deriving DecidableEq, Repr

/-- Embedding of `BaseModel._array_format` (base.py lines 355-384) restricted to
the token/mask channels (labels are only produced when present, and no claim
touches them).  `tokenSeqs` is `encoded_output.token_ids`. -/
def arrayFormat (vocabSize maxLength : ℕ) (tokenSeqs : List (List ℤ)) : ArrayOutput :=
  { tokenIds := tokenSeqs.map (xRow vocabSize maxLength)
    mask := tokenSeqs.map fun seq => maskRow maxLength seq.length }

theorem sliceSetFrom_length (j0 lo hi : ℕ) (v : ℚ) (l : List ℚ) :
    (sliceSetFrom j0 lo hi v l).length = l.length := by
  induction l generalizing j0 with
  | nil => rfl
  | cons x xs ih => simp [sliceSetFrom, ih]

theorem sliceSetFrom_getD (j0 lo hi : ℕ) (v : ℚ) (l : List ℚ) (k : ℕ) (hk : k < l.length) :
    (sliceSetFrom j0 lo hi v l).getD k 0 =
      if lo ≤ j0 + k ∧ j0 + k < hi then v else l.getD k 0 := by
  induction l generalizing j0 k with
  | nil => simp at hk
  | cons x xs ih =>
    cases k with
    | zero => simp [sliceSetFrom]
    | succ k =>
      simp only [sliceSetFrom, List.getD_cons_succ]
      rw [ih (j0 + 1) k (by simpa using hk)]
      have : j0 + 1 + k = j0 + (k + 1) := by omega
      rw [this]

theorem sliceSet_getD (l : List ℚ) (lo hi : ℕ) (v : ℚ) (k : ℕ) (hk : k < l.length) :
    (sliceSet l lo hi v).getD k 0 = if lo ≤ k ∧ k < hi then v else l.getD k 0 := by
  have := sliceSetFrom_getD 0 lo hi v l k hk
  simpa [sliceSet] using this

theorem getD_replicate_zero (n k : ℕ) : (List.replicate n (0 : ℚ)).getD k 0 = 0 := by
  induction n generalizing k with
  | zero => simp
  | succ n ih =>
    cases k with
    | zero => simp [List.replicate]
    | succ k =>
      rw [List.replicate_succ, List.getD_cons_succ]
      exact ih k

theorem maskRow_length (maxLength seqLength : ℕ) :
    (maskRow maxLength seqLength).length = maxLength := by
  simp [maskRow, sliceSet, sliceSetFrom_length]

theorem maskRow_getD (maxLength seqLength k : ℕ) (hk : k < maxLength) :
    (maskRow maxLength seqLength).getD k 0 =
      if 1 ≤ k ∧ k < seqLength then 1 else 0 := by
  rw [maskRow, sliceSet_getD _ _ _ _ _ (by simpa using hk)]
  split
  · rfl
  · simp [getD_replicate_zero]

/-- C6: for every encoded example of sequence length `L` with `1 ≤ L ≤ max_length`,
the mask row produced by `_array_format` is `0` at index `0`, `1` at indices
`1 ≤ j < L`, and `0` at indices `L ≤ j < max_length`. -/
theorem arrayFormat_mask_invariant (vocabSize maxLength : ℕ) (tokenSeqs : List (List ℤ))
    (i : ℕ) (hi : i < tokenSeqs.length)
    (hL1 : 1 ≤ (tokenSeqs.getD i []).length)
    (hL2 : (tokenSeqs.getD i []).length ≤ maxLength) :
    ((arrayFormat vocabSize maxLength tokenSeqs).mask.getD i []).getD 0 0 = 0 ∧
    (∀ j, 1 ≤ j → j < (tokenSeqs.getD i []).length →
      ((arrayFormat vocabSize maxLength tokenSeqs).mask.getD i []).getD j 0 = 1) ∧
    (∀ j, (tokenSeqs.getD i []).length ≤ j → j < maxLength →
      ((arrayFormat vocabSize maxLength tokenSeqs).mask.getD i []).getD j 0 = 0) := by
  have hrow : (arrayFormat vocabSize maxLength tokenSeqs).mask.getD i [] =
      maskRow maxLength (tokenSeqs.getD i []).length := by
    simp only [arrayFormat]
    rw [List.getD_eq_getElem?_getD, List.getElem?_map]
    rw [List.getElem?_eq_getElem hi]
    simp [List.getD_eq_getElem?_getD, List.getElem?_eq_getElem hi]
  rw [hrow]
  refine ⟨?_, ?_, ?_⟩
  · rw [maskRow_getD _ _ 0 (by omega)]
    simp
  · intro j h1 h2
    rw [maskRow_getD _ _ j (by omega)]
    exact if_pos ⟨h1, h2⟩
  · intro j h1 h2
    rw [maskRow_getD _ _ j h2]
    have hn : ¬ (1 ≤ j ∧ j < (tokenSeqs.getD i []).length) := by omega
    exact if_neg hn

/-- Closed instance of `arrayFormat_mask_invariant` at a concrete batch. -/
theorem arrayFormat_mask_invariant_witness :
    (((arrayFormat 40478 5 [[7, 8, 9]]).mask.getD 0 []).getD 0 0 = 0 ∧
    (∀ j, 1 ≤ j → j < (([[7, 8, 9]] : List (List ℤ)).getD 0 []).length →
      ((arrayFormat 40478 5 [[7, 8, 9]]).mask.getD 0 []).getD j 0 = 1) ∧
    (∀ j, (([[7, 8, 9]] : List (List ℤ)).getD 0 []).length ≤ j → j < 5 →
      ((arrayFormat 40478 5 [[7, 8, 9]]).mask.getD 0 []).getD j 0 = 0)) :=
  arrayFormat_mask_invariant 40478 5 [[7, 8, 9]] 0 (by decide) (by decide) (by decide)

/-- A finite float value seen as an element of the float line with `inf`. -/
def toTop (q : ℚ) : WithTop ℚ := (q : WithTop ℚ)

/-- Embedding of `np.mean` over a window of float losses: the sum divided by the
length, where an `inf` (`⊤`) entry makes the sum — hence the mean — `inf`. -/
def npMean (l : List (WithTop ℚ)) : WithTop ℚ :=
  l.sum.map fun s => s / (l.length : ℚ)

/-- The mutable state the validation part of `_training_loop` threads through
the epochs (base.py lines 187-188, 237-243): the best value seen so far, the
FIFO window of per-check total validation losses, and — per check — whether the
model was saved at that check. -/
structure TrainLoopState where
  bestValLoss : WithTop ℚ
  valWindow : List (WithTop ℚ)
  saves : List Bool
deriving DecidableEq, Repr

/-- Initial loop state: `best_val_loss = float("inf")` and
`val_window = [float("inf")] * val_window_size` (base.py lines 187-188). -/
def initLoopState (W : ℕ) : TrainLoopState :=
  { bestValLoss := ⊤, valWindow := List.replicate W ⊤, saves := [] }

/-- One validation check (base.py lines 237-243): push the total validation loss
into the window (`append` then `pop(0)`), and if the window mean is `≤` the best
value, update the best value and save when `save_best_model` is set. -/
def valCheck (saveBestModel : Bool) (st : TrainLoopState) (sumValLoss : ℚ) : TrainLoopState :=
  let w := (st.valWindow ++ [toTop sumValLoss]).tail
  if npMean w ≤ st.bestValLoss then
    { bestValLoss := npMean w, valWindow := w, saves := st.saves ++ [saveBestModel] }
  else
    { bestValLoss := st.bestValLoss, valWindow := w, saves := st.saves ++ [false] }

/-- The validation checks of one `_training_loop` run, fed the sequence of
per-check total validation losses. -/
def runValChecks (saveBestModel : Bool) (W : ℕ) (losses : List ℚ) : TrainLoopState :=
  losses.foldl (valCheck saveBestModel) (initLoopState W)

/-- Closed form of the window contents after the prefix `pre` of losses has been
checked. -/
def loopWindow (W : ℕ) (pre : List ℚ) : List (WithTop ℚ) :=
  (List.replicate W (⊤ : WithTop ℚ) ++ pre.map toTop).drop pre.length

/-- Closed form of the window mean after the prefix `pre` has been checked. -/
def loopMean (W : ℕ) (pre : List ℚ) : WithTop ℚ :=
  npMean (loopWindow W pre)

/-- The window means observed at checks `1, …, vs.length`. -/
def loopMeans (W : ℕ) (vs : List ℚ) : List (WithTop ℚ) :=
  (List.range vs.length).map fun k => loopMean W (vs.take (k + 1))

/-- Closed form of the best-value record after all checks. -/
def loopBest (W : ℕ) (vs : List ℚ) : WithTop ℚ :=
  (loopMeans W vs).foldl min ⊤

/-- Closed form of the per-check save flags. -/
def loopSaves (saveBestModel : Bool) (W : ℕ) (vs : List ℚ) : List Bool :=
  (List.range vs.length).map fun k =>
    saveBestModel && decide (loopMean W (vs.take (k + 1)) ≤ loopBest W (vs.take k))

/-- The window means of all `W`-length contiguous windows of the loss sequence:
the object the spec compares the best-value record against. -/
def contiguousWindowMeans (W : ℕ) (vs : List ℚ) : List ℚ :=
  (List.range (vs.length + 1 - W)).map fun j => ((vs.drop j).take W).sum / (W : ℚ)

theorem tail_drop_append (l : List (WithTop ℚ)) (x : WithTop ℚ) (n : ℕ) (h : n < l.length) :
    (l.drop n ++ [x]).tail = (l ++ [x]).drop (n + 1) := by
  have hne : l.drop n ≠ [] := by
    intro hnil
    have := List.length_drop n l
    rw [hnil] at this
    simp at this
    omega
  obtain ⟨y, ys, hys⟩ := List.exists_cons_of_ne_nil hne
  have h1 : (l.drop n ++ [x]).tail = ys ++ [x] := by rw [hys]; rfl
  have h2 : l.drop (n + 1) = ys := by
    have := List.tail_drop l n
    rw [hys] at this
    simpa using this.symm
  rw [h1, List.drop_append_of_le_length (by omega), h2]

theorem loopWindow_zero (W : ℕ) : loopWindow W [] = List.replicate W ⊤ := by
  simp [loopWindow]

theorem loopWindow_length (W : ℕ) (pre : List ℚ) : (loopWindow W pre).length = W := by
  rw [loopWindow, List.length_drop, List.length_append, List.length_replicate,
    List.length_map]
  omega

theorem loopWindow_append (W : ℕ) (hW : 0 < W) (pre : List ℚ) (v : ℚ) :
    loopWindow W (pre ++ [v]) = (loopWindow W pre ++ [toTop v]).tail := by
  have hlt : pre.length <
      (List.replicate W (⊤ : WithTop ℚ) ++ pre.map toTop).length := by
    rw [List.length_append, List.length_replicate, List.length_map]
    omega
  rw [loopWindow, loopWindow, tail_drop_append _ _ _ hlt, List.map_append,
    List.length_append]
  simp [List.append_assoc]

theorem loopMeans_append (W : ℕ) (vs : List ℚ) (v : ℚ) :
    loopMeans W (vs ++ [v]) = loopMeans W vs ++ [loopMean W (vs ++ [v])] := by
  rw [loopMeans, loopMeans]
  have hlen : (vs ++ [v]).length = vs.length + 1 := by simp
  rw [hlen, List.range_succ, List.map_append]
  congr 1
  · apply List.map_congr_left
    intro k hk
    rw [List.mem_range] at hk
    rw [List.take_append_of_le_length (by omega)]
  · simp only [List.map_cons, List.map_nil]
    rw [List.take_of_length_le (by simp)]

theorem loopSaves_append (sbm : Bool) (W : ℕ) (vs : List ℚ) (v : ℚ) :
    loopSaves sbm W (vs ++ [v]) =
      loopSaves sbm W vs ++
        [sbm && decide (loopMean W (vs ++ [v]) ≤ loopBest W vs)] := by
  rw [loopSaves, loopSaves]
  have hlen : (vs ++ [v]).length = vs.length + 1 := by simp
  rw [hlen, List.range_succ, List.map_append]
  congr 1
  · apply List.map_congr_left
    intro k hk
    rw [List.mem_range] at hk
    rw [List.take_append_of_le_length (by omega),
      List.take_append_of_le_length (by omega)]
  · simp only [List.map_cons, List.map_nil]
    rw [List.take_of_length_le (by simp),
      List.take_append_of_le_length (le_refl vs.length), List.take_length]

theorem loopBest_append (W : ℕ) (vs : List ℚ) (v : ℚ) :
    loopBest W (vs ++ [v]) = min (loopBest W vs) (loopMean W (vs ++ [v])) := by
  rw [loopBest, loopBest, loopMeans_append, List.foldl_append]
  rfl

/-- The loop state after the checks equals its closed form. -/
theorem runValChecks_eq (sbm : Bool) (W : ℕ) (hW : 0 < W) (vs : List ℚ) :
    runValChecks sbm W vs =
      { bestValLoss := loopBest W vs
        valWindow := loopWindow W vs
        saves := loopSaves sbm W vs } := by
  induction vs using List.reverseRecOn with
  | nil =>
    simp [runValChecks, initLoopState, loopBest, loopMeans, loopSaves, loopWindow_zero]
  | append_singleton vs v ih =>
    rw [runValChecks, List.foldl_append]
    rw [show List.foldl (valCheck sbm) (initLoopState W) vs = runValChecks sbm W vs from rfl, ih]
    rw [List.foldl_cons, List.foldl_nil]
    simp only [valCheck]
    simp only [← loopWindow_append W hW vs v]
    have hm : npMean (loopWindow W (vs ++ [v])) = loopMean W (vs ++ [v]) := rfl
    rw [hm, loopBest_append, loopSaves_append]
    by_cases hle : loopMean W (vs ++ [v]) ≤ loopBest W vs
    · rw [if_pos hle, min_eq_right hle]
      simp [hle]
    · rw [if_neg hle, min_eq_left (le_of_not_le hle)]
      simp [hle]

theorem toTop_def (q : ℚ) : toTop q = (q : WithTop ℚ) := rfl

theorem sum_eq_top_of_mem (l : List (WithTop ℚ)) (h : ⊤ ∈ l) : l.sum = ⊤ := by
  induction l with
  | nil => simp at h
  | cons x xs ih =>
    rw [List.sum_cons]
    rcases List.mem_cons.mp h with h | h
    · rw [← h, WithTop.top_add]
    · rw [ih h, WithTop.add_top]

theorem npMean_eq_top (l : List (WithTop ℚ)) (h : ⊤ ∈ l) : npMean l = ⊤ := by
  rw [npMean, sum_eq_top_of_mem l h]
  rfl

theorem sum_map_toTop (l : List ℚ) : (l.map toTop).sum = toTop l.sum := by
  induction l with
  | nil => rfl
  | cons x xs ih =>
    rw [List.map_cons, List.sum_cons, List.sum_cons, ih, toTop_def, toTop_def, toTop_def,
      ← WithTop.coe_add]

theorem npMean_map_toTop (l : List ℚ) :
    npMean (l.map toTop) = toTop (l.sum / (l.length : ℚ)) := by
  rw [npMean, sum_map_toTop, List.length_map]
  rfl

theorem top_mem_loopWindow_of_lt (W : ℕ) (pre : List ℚ) (h : pre.length < W) :
    ⊤ ∈ loopWindow W pre := by
  rw [loopWindow,
    List.drop_append_of_le_length (by rw [List.length_replicate]; omega),
    List.drop_replicate]
  exact List.mem_append_left _ (List.mem_replicate.mpr ⟨by omega, rfl⟩)

theorem loopMean_of_lt (W : ℕ) (pre : List ℚ) (h : pre.length < W) :
    loopMean W pre = ⊤ :=
  npMean_eq_top _ (top_mem_loopWindow_of_lt W pre h)

theorem loopWindow_of_ge (W : ℕ) (pre : List ℚ) (h : W ≤ pre.length) :
    loopWindow W pre = (pre.drop (pre.length - W)).map toTop := by
  rw [loopWindow, List.drop_append_eq_append_drop,
    List.drop_eq_nil_of_le (by rw [List.length_replicate]; omega),
    List.nil_append, List.length_replicate, List.map_drop]

theorem loopMean_of_ge (W : ℕ) (pre : List ℚ) (h : W ≤ pre.length) :
    loopMean W pre = toTop ((pre.drop (pre.length - W)).sum / (W : ℚ)) := by
  rw [loopMean, loopWindow_of_ge W pre h, npMean_map_toTop, List.length_drop]
  have hlen : pre.length - (pre.length - W) = W := by omega
  rw [hlen]

/-- On a run of at least `W` checks, the sequence of per-check window means is
`W - 1` infinite means followed by the means of the full contiguous windows. -/
theorem loopMeans_decomp (W : ℕ) (hW : 0 < W) (vs : List ℚ) (hn : W ≤ vs.length) :
    loopMeans W vs =
      List.replicate (W - 1) ⊤ ++ (contiguousWindowMeans W vs).map toTop := by
  rw [loopMeans, contiguousWindowMeans,
    show vs.length = (W - 1) + (vs.length + 1 - W) by omega, List.range_add,
    List.map_append]
  congr 1
  · refine List.eq_replicate_iff.mpr ⟨by simp, ?_⟩
    intro x hx
    obtain ⟨k, hk, hfk⟩ := List.mem_map.mp hx
    rw [List.mem_range] at hk
    rw [← hfk]
    apply loopMean_of_lt
    rw [List.length_take]
    omega
  · rw [show (W - 1) + (vs.length + 1 - W) = vs.length by omega, List.map_map, List.map_map]
    apply List.map_congr_left
    intro j hj
    rw [List.mem_range] at hj
    have hWj : W - 1 + j + 1 = W + j := by omega
    simp only [Function.comp_apply]
    rw [hWj]
    have hlen : (vs.take (W + j)).length = W + j := by
      rw [List.length_take]
      omega
    rw [loopMean_of_ge W _ (by omega), hlen,
      show W + j - W = j by omega, List.drop_take, show W + j - j = W by omega]

theorem foldl_min_replicate_top (k : ℕ) (a : WithTop ℚ) :
    (List.replicate k (⊤ : WithTop ℚ)).foldl min a = a := by
  induction k generalizing a with
  | zero => rfl
  | succ k ih =>
    rw [List.replicate_succ, List.foldl_cons, min_eq_left le_top]
    exact ih a

theorem foldl_min_map_toTop (ms : List ℚ) (a : WithTop ℚ) :
    (ms.map toTop).foldl min a = min a ms.minimum := by
  induction ms generalizing a with
  | nil =>
    rw [List.map_nil, List.foldl_nil, List.minimum_nil, min_eq_left le_top]
  | cons q ms ih =>
    rw [List.map_cons, List.foldl_cons, ih, List.minimum_cons, ← min_assoc, toTop_def]

theorem le_foldl_min (m : WithTop ℚ) (l : List (WithTop ℚ)) (a : WithTop ℚ) :
    m ≤ l.foldl min a ↔ m ≤ a ∧ ∀ x ∈ l, m ≤ x := by
  induction l generalizing a with
  | nil => simp
  | cons x xs ih =>
    rw [List.foldl_cons, ih, le_min_iff, List.forall_mem_cons]
    tauto

theorem getD_map_range {α : Type} (f : ℕ → α) (n k : ℕ) (d : α) (h : k < n) :
    ((List.range n).map f).getD k d = f k := by
  rw [List.getD_eq_getElem?_getD, List.getElem?_map, List.getElem?_range h]
  rfl

/-- C1: on a run with window size `W` and more than `W` validation checks with
per-check total losses `vs`, the final best-value record equals the minimum,
over all `W`-length contiguous windows of `vs`, of the window mean; and the
best-model checkpoint is saved exactly at the checks whose current window mean
is `≤` every previously seen window mean. -/
theorem trainingLoop_best_and_saves (W : ℕ) (vs : List ℚ) (hW : 0 < W)
    (hn : W < vs.length) :
    (runValChecks true W vs).bestValLoss = (contiguousWindowMeans W vs).minimum
    ∧ ∀ k, k < vs.length →
        ((runValChecks true W vs).saves.getD k false = true ↔
          ∀ j, j < k →
            npMean ((runValChecks true W (vs.take (k + 1))).valWindow) ≤
              npMean ((runValChecks true W (vs.take (j + 1))).valWindow)) := by
  have hmean : ∀ p : ℕ,
      npMean ((runValChecks true W (vs.take p)).valWindow) = loopMean W (vs.take p) := by
    intro p
    rw [runValChecks_eq true W hW]
    rfl
  constructor
  · rw [runValChecks_eq true W hW]
    show loopBest W vs = _
    rw [loopBest, loopMeans_decomp W hW vs (le_of_lt hn), List.foldl_append,
      foldl_min_replicate_top, foldl_min_map_toTop, min_eq_right le_top]
  · intro k hk
    rw [runValChecks_eq true W hW]
    show (loopSaves true W vs).getD k false = true ↔ _
    rw [loopSaves, getD_map_range _ _ _ _ hk, Bool.true_and, decide_eq_true_eq]
    have hklen : (vs.take k).length = k := by
      rw [List.length_take]
      omega
    constructor
    · intro h j hj
      rw [hmean (k + 1), hmean (j + 1)]
      have hle := (le_foldl_min _ _ _).mp h
      apply hle.2
      rw [loopMeans]
      apply List.mem_map.mpr
      refine ⟨j, List.mem_range.mpr (by omega), ?_⟩
      rw [List.take_take]
      congr 2
      omega
    · intro h
      rw [loopBest, le_foldl_min]
      refine ⟨le_top, ?_⟩
      intro x hx
      rw [loopMeans] at hx
      obtain ⟨j, hj, hfj⟩ := List.mem_map.mp hx
      rw [List.mem_range, hklen] at hj
      rw [← hfj, List.take_take, show min (j + 1) k = j + 1 by omega]
      have := h j hj
      rw [hmean (k + 1), hmean (j + 1)] at this
      exact this

/-- Closed instance of `trainingLoop_best_and_saves` at `W = 2`,
`vs = [4, 2, 6, 2]`. -/
theorem trainingLoop_best_and_saves_witness :
    (runValChecks true 2 [4, 2, 6, 2]).bestValLoss =
        (contiguousWindowMeans 2 [4, 2, 6, 2]).minimum
    ∧ ∀ k, k < ([4, 2, 6, 2] : List ℚ).length →
        ((runValChecks true 2 [4, 2, 6, 2]).saves.getD k false = true ↔
          ∀ j, j < k →
            npMean ((runValChecks true 2 (([4, 2, 6, 2] : List ℚ).take (k + 1))).valWindow) ≤
              npMean ((runValChecks true 2 (([4, 2, 6, 2] : List ℚ).take (j + 1))).valWindow)) :=
  trainingLoop_best_and_saves 2 [4, 2, 6, 2] (by decide) (by decide)

/-- C8: the validation window is initialized with `val_window_size` copies of
`inf`; the window mean stays `inf` for the first `val_window_size - 1` checks;
on the first check the acceptance condition `mean ≤ best` holds against the
initial `inf` best value, so the best-value record becomes the first window mean
and, with `save_best_model` set, a checkpoint is saved at the very first check. -/
theorem valWindow_first_check_saves (W : ℕ) (vs : List ℚ) (hW : 0 < W)
    (hvs : vs ≠ []) :
    (initLoopState W).valWindow = List.replicate W ⊤
    ∧ (∀ k, k + 1 < W →
        npMean ((runValChecks true W (vs.take (k + 1))).valWindow) = ⊤)
    ∧ npMean ((runValChecks true W (vs.take 1)).valWindow) ≤ (initLoopState W).bestValLoss
    ∧ (runValChecks true W (vs.take 1)).bestValLoss =
        npMean ((runValChecks true W (vs.take 1)).valWindow)
    ∧ (runValChecks true W vs).saves.getD 0 false = true := by
  have hn : 0 < vs.length := List.length_pos.mpr hvs
  have hmean : ∀ p : ℕ,
      npMean ((runValChecks true W (vs.take p)).valWindow) = loopMean W (vs.take p) := by
    intro p
    rw [runValChecks_eq true W hW]
    rfl
  refine ⟨rfl, ?_, ?_, ?_, ?_⟩
  · intro k hkW
    rw [hmean (k + 1)]
    apply loopMean_of_lt
    rw [List.length_take]
    omega
  · exact le_top
  · rw [hmean 1, runValChecks_eq true W hW]
    show loopBest W (vs.take 1) = _
    have h1 : (vs.take 1).length = 1 := by
      rw [List.length_take]
      omega
    rw [loopBest, loopMeans, h1]
    show min ⊤ (loopMean W ((vs.take 1).take 1)) = _
    rw [List.take_take, min_eq_right le_top]
    simp
  · rw [runValChecks_eq true W hW]
    show (loopSaves true W vs).getD 0 false = true
    rw [loopSaves, getD_map_range _ _ _ _ hn, Bool.true_and, decide_eq_true_eq]
    show loopMean W (vs.take 1) ≤ loopBest W (vs.take 0)
    rw [List.take_zero, loopBest, loopMeans]
    exact le_top

/-- Closed instance of `valWindow_first_check_saves` at `W = 3`, `vs = [7, 1]`. -/
theorem valWindow_first_check_saves_witness :
    (initLoopState 3).valWindow = List.replicate 3 ⊤
    ∧ (∀ k, k + 1 < 3 →
        npMean ((runValChecks true 3 (([7, 1] : List ℚ).take (k + 1))).valWindow) = ⊤)
    ∧ npMean ((runValChecks true 3 (([7, 1] : List ℚ).take 1)).valWindow) ≤
        (initLoopState 3).bestValLoss
    ∧ (runValChecks true 3 (([7, 1] : List ℚ).take 1)).bestValLoss =
        npMean ((runValChecks true 3 (([7, 1] : List ℚ).take 1)).valWindow)
    ∧ (runValChecks true 3 [7, 1]).saves.getD 0 false = true :=
  valWindow_first_check_saves 3 [7, 1] (by decide) (by decide)

/-- A float matrix (2-D numpy array) as a list of rows. -/
abbrev Mat := List (List ℚ)

/-- Embedding of `np.ones_like` on a matrix. -/
def onesLike (m : Mat) : Mat :=
  m.map fun r => r.map fun _ => (1 : ℚ)

/-- Embedding of `np.zeros_like` on a matrix. -/
def zerosLike (m : Mat) : Mat :=
  m.map fun r => r.map fun _ => (0 : ℚ)

/-- The configuration options of `finetune.config` that the verified claims
touch. -/
structure Config where
  interpolate_pos_embed : Bool
  max_length : ℕ
  lm_loss_coef : ℚ
  val_window_size : ℕ
  save_best_model : Bool
deriving DecidableEq, Repr

/-- Modelled from the spec: `interpolate_pos_embed` (finetune/utils.py, which is
not under src/) resamples the stored positional-embedding table to `max_length`
rows; we model the resampling as index interpolation, producing exactly
`max_length` rows. -/
def interpolatePosEmbed (pos : Mat) (maxLength : ℕ) : Mat :=
  (List.range maxLength).map fun i => pos.getD (i * pos.length / maxLength) []

/-- The result of `_load_base_model`: the parameter list whose head is the
combined embedding table, and the regularization mask for that head (the masks
for the `scalarMaskCount` remaining parameters are the scalar `1.0`, produced in
the source by `itertools.repeat`). -/
structure PretrainedWeights where
  initParams : List Mat
  regMask : Mat
  scalarMaskCount : ℕ
deriving DecidableEq, Repr

/-- The splice step of `_load_base_model` (base.py lines 630-636): build the
regularization mask from the token table, the fresh special-token embeddings and
the (already length-adjusted) positional table, concatenate the three into the
new first parameter, and delete the separate token table entry. -/
def spliceEmbeddings (tokenEmbed specialEmbed posAdjusted : Mat) (rest : List Mat) :
    PretrainedWeights :=
  { initParams := (tokenEmbed ++ specialEmbed ++ posAdjusted) :: rest
    regMask := onesLike tokenEmbed ++ zerosLike specialEmbed ++ onesLike posAdjusted
    scalarMaskCount := rest.length }

/-- Embedding of `_load_base_model` (base.py lines 612-641).  The reshaped raw
parameters read from the shape manifest are passed in: `posEmbed` is
`init_params[0]` (the stored positional table), `tokenEmbed` is `init_params[1]`
(the token embedding table), `rest` the remaining parameters, and
`specialEmbed` the freshly drawn normal special-token embeddings
(`np.random.randn * weight_stddev`, passed in as the realized random draw). -/
def loadBaseModel (cfg : Config) (posEmbed tokenEmbed : Mat) (rest : List Mat)
    (specialEmbed : Mat) : Except String PretrainedWeights :=
  if cfg.interpolate_pos_embed then
    .ok (spliceEmbeddings tokenEmbed specialEmbed
      (interpolatePosEmbed posEmbed cfg.max_length) rest)
  else if 512 < cfg.max_length then
    .error "Max Length cannot be greater than 512 if interploate_pos_embed is turned off"
  else
    .ok (spliceEmbeddings tokenEmbed specialEmbed (posEmbed.take cfg.max_length) rest)

theorem onesLike_length (m : Mat) : (onesLike m).length = m.length :=
  List.length_map m _

theorem zerosLike_length (m : Mat) : (zerosLike m).length = m.length :=
  List.length_map m _

theorem getD_onesLike (m : Mat) (i : ℕ) (h : i < m.length) :
    (onesLike m).getD i [] = (m.getD i []).map fun _ => (1 : ℚ) := by
  rw [onesLike, List.getD_eq_getElem?_getD, List.getElem?_map, List.getElem?_eq_getElem h]
  simp [List.getD_eq_getElem?_getD, List.getElem?_eq_getElem h]

theorem getD_zerosLike (m : Mat) (i : ℕ) (h : i < m.length) :
    (zerosLike m).getD i [] = (m.getD i []).map fun _ => (0 : ℚ) := by
  rw [zerosLike, List.getD_eq_getElem?_getD, List.getElem?_map, List.getElem?_eq_getElem h]
  simp [List.getD_eq_getElem?_getD, List.getElem?_eq_getElem h]

/-- Structure of the output of the splice step: combined first parameter, mask
row count, and per-region mask values. -/
theorem spliceEmbeddings_spec (tokenEmbed specialEmbed posAdjusted : Mat)
    (rest : List Mat) :
    (spliceEmbeddings tokenEmbed specialEmbed posAdjusted rest).initParams.headI =
        tokenEmbed ++ specialEmbed ++ posAdjusted
    ∧ (spliceEmbeddings tokenEmbed specialEmbed posAdjusted rest).regMask.length =
        (spliceEmbeddings tokenEmbed specialEmbed posAdjusted rest).initParams.headI.length
    ∧ (∀ i, i < tokenEmbed.length →
        ∀ x ∈ (spliceEmbeddings tokenEmbed specialEmbed posAdjusted rest).regMask.getD i [],
          x = 1)
    ∧ (∀ i, tokenEmbed.length ≤ i → i < tokenEmbed.length + specialEmbed.length →
        ∀ x ∈ (spliceEmbeddings tokenEmbed specialEmbed posAdjusted rest).regMask.getD i [],
          x = 0)
    ∧ (∀ i, tokenEmbed.length + specialEmbed.length ≤ i →
        i < (spliceEmbeddings tokenEmbed specialEmbed posAdjusted rest).regMask.length →
        ∀ x ∈ (spliceEmbeddings tokenEmbed specialEmbed posAdjusted rest).regMask.getD i [],
          x = 1) := by
  have hmask : (spliceEmbeddings tokenEmbed specialEmbed posAdjusted rest).regMask =
      (onesLike tokenEmbed ++ zerosLike specialEmbed) ++ onesLike posAdjusted := by
    show (onesLike tokenEmbed ++ zerosLike specialEmbed ++ onesLike posAdjusted) = _
    rfl
  have hlen : (spliceEmbeddings tokenEmbed specialEmbed posAdjusted rest).regMask.length =
      tokenEmbed.length + specialEmbed.length + posAdjusted.length := by
    rw [hmask, List.length_append, List.length_append, onesLike_length, zerosLike_length,
      onesLike_length]
  refine ⟨rfl, ?_, ?_, ?_, ?_⟩
  · rw [hlen]
    show _ = (tokenEmbed ++ specialEmbed ++ posAdjusted).length
    rw [List.length_append, List.length_append]
  · intro i hi x hx
    have hrow : (spliceEmbeddings tokenEmbed specialEmbed posAdjusted rest).regMask.getD i [] =
        (tokenEmbed.getD i []).map fun _ => (1 : ℚ) := by
      rw [hmask,
        List.getD_append _ _ _ _ (by rw [List.length_append, onesLike_length]; omega),
        List.getD_append _ _ _ _ (by rw [onesLike_length]; omega), getD_onesLike _ _ hi]
    rw [hrow] at hx
    obtain ⟨y, _, hy⟩ := List.mem_map.mp hx
    exact hy.symm
  · intro i hi1 hi2 x hx
    have hrow : (spliceEmbeddings tokenEmbed specialEmbed posAdjusted rest).regMask.getD i [] =
        (specialEmbed.getD (i - tokenEmbed.length) []).map fun _ => (0 : ℚ) := by
      rw [hmask,
        List.getD_append _ _ _ _
          (by rw [List.length_append, onesLike_length, zerosLike_length]; omega),
        List.getD_append_right _ _ _ _ (by rw [onesLike_length]; omega), onesLike_length,
        getD_zerosLike _ _ (by omega)]
    rw [hrow] at hx
    obtain ⟨y, _, hy⟩ := List.mem_map.mp hx
    exact hy.symm
  · intro i hi1 hi2 x hx
    rw [hlen] at hi2
    have hrow : (spliceEmbeddings tokenEmbed specialEmbed posAdjusted rest).regMask.getD i [] =
        (posAdjusted.getD (i - (tokenEmbed.length + specialEmbed.length)) []).map
          fun _ => (1 : ℚ) := by
      rw [hmask,
        List.getD_append_right _ _ _ _
          (by rw [List.length_append, onesLike_length, zerosLike_length]; omega),
        List.length_append, onesLike_length, zerosLike_length,
        getD_onesLike _ _ (by omega)]
    rw [hrow] at hx
    obtain ⟨y, _, hy⟩ := List.mem_map.mp hx
    exact hy.symm

/-- C2: whenever `_load_base_model` returns, its first parameter is the row-wise
concatenation of the original token table, the fresh special-token embeddings
and the length-adjusted positional table, and the regularization mask has the
same row count with value `0` on the special-token rows and `1` elsewhere. -/
theorem loadBaseModel_mask_alignment (cfg : Config) (posEmbed tokenEmbed : Mat)
    (rest : List Mat) (specialEmbed : Mat) (w : PretrainedWeights)
    (h : loadBaseModel cfg posEmbed tokenEmbed rest specialEmbed = .ok w) :
    (∃ posAdjusted,
      (cfg.interpolate_pos_embed = true →
        posAdjusted = interpolatePosEmbed posEmbed cfg.max_length)
      ∧ (cfg.interpolate_pos_embed = false → posAdjusted = posEmbed.take cfg.max_length)
      ∧ w.initParams.headI = tokenEmbed ++ specialEmbed ++ posAdjusted)
    ∧ w.regMask.length = w.initParams.headI.length
    ∧ (∀ i, i < tokenEmbed.length → ∀ x ∈ w.regMask.getD i [], x = 1)
    ∧ (∀ i, tokenEmbed.length ≤ i → i < tokenEmbed.length + specialEmbed.length →
        ∀ x ∈ w.regMask.getD i [], x = 0)
    ∧ (∀ i, tokenEmbed.length + specialEmbed.length ≤ i → i < w.regMask.length →
        ∀ x ∈ w.regMask.getD i [], x = 1) := by
  rw [loadBaseModel] at h
  by_cases hip : cfg.interpolate_pos_embed
  · rw [if_pos hip, Except.ok.injEq] at h
    obtain ⟨h1, h2, h3, h4, h5⟩ := spliceEmbeddings_spec tokenEmbed specialEmbed
      (interpolatePosEmbed posEmbed cfg.max_length) rest
    rw [h] at h1 h2 h3 h4 h5
    exact ⟨⟨interpolatePosEmbed posEmbed cfg.max_length, fun _ => rfl,
      fun hc => absurd hip (by rw [hc]; exact Bool.false_ne_true), h1⟩, h2, h3, h4, h5⟩
  · rw [if_neg hip] at h
    by_cases hml : 512 < cfg.max_length
    · rw [if_pos hml] at h
      exact absurd h (by intro hc; cases hc)
    · rw [if_neg hml, Except.ok.injEq] at h
      obtain ⟨h1, h2, h3, h4, h5⟩ := spliceEmbeddings_spec tokenEmbed specialEmbed
        (posEmbed.take cfg.max_length) rest
      rw [h] at h1 h2 h3 h4 h5
      exact ⟨⟨posEmbed.take cfg.max_length,
        fun hc => absurd hc (by simpa using hip), fun _ => rfl, h1⟩, h2, h3, h4, h5⟩

/-- Concrete configuration for the `loadBaseModel` witness: no interpolation,
`max_length = 1`. -/
def c2cfg : Config := ⟨false, 1, 0, 1, false⟩

/-- The weights returned by `loadBaseModel` at the witness inputs. -/
def c2w : PretrainedWeights := spliceEmbeddings [[1, 2]] [[5, 5]] [[3]] []

/-- Closed instance of `loadBaseModel_mask_alignment` at a concrete 1-row token
table, 1-row special embedding and 2-row positional table. -/
theorem loadBaseModel_mask_alignment_witness :
    (∃ posAdjusted,
      (c2cfg.interpolate_pos_embed = true →
        posAdjusted = interpolatePosEmbed [[3], [4]] c2cfg.max_length)
      ∧ (c2cfg.interpolate_pos_embed = false →
          posAdjusted = ([[3], [4]] : Mat).take c2cfg.max_length)
      ∧ c2w.initParams.headI = ([[1, 2]] : Mat) ++ [[5, 5]] ++ posAdjusted)
    ∧ c2w.regMask.length = c2w.initParams.headI.length
    ∧ (∀ i, i < ([[1, 2]] : Mat).length → ∀ x ∈ c2w.regMask.getD i [], x = 1)
    ∧ (∀ i, ([[1, 2]] : Mat).length ≤ i →
        i < ([[1, 2]] : Mat).length + ([[5, 5]] : Mat).length →
        ∀ x ∈ c2w.regMask.getD i [], x = 0)
    ∧ (∀ i, ([[1, 2]] : Mat).length + ([[5, 5]] : Mat).length ≤ i →
        i < c2w.regMask.length → ∀ x ∈ c2w.regMask.getD i [], x = 1) :=
  loadBaseModel_mask_alignment c2cfg [[3], [4]] [[1, 2]] [] [[5, 5]] c2w rfl

/-- The side-effecting phases of `_build_model` that the error-ordering claim
talks about. -/
inductive BuildEvent where
  | loadBase
  | graphConstruction
  | sessionInit
deriving DecidableEq, Repr

/-- Embedding of `_build_model` (base.py lines 529-560) as the trace of its
phases: `_load_base_model` runs first (line 534); only when it returns does the
graph get (re)constructed — guarded by `needsConstruct`, the
`not is_trained or train != self.train or target_dim != self.target_dim` test of
line 535 — followed by session initialization.  A `ValueError` raised by the
loader propagates: no later phase runs. -/
def buildModel (cfg : Config) (posEmbed tokenEmbed : Mat) (rest : List Mat)
    (specialEmbed : Mat) (needsConstruct : Bool) :
    List BuildEvent × Except String PretrainedWeights :=
  match loadBaseModel cfg posEmbed tokenEmbed rest specialEmbed with
  | Except.error e => ([BuildEvent.loadBase], Except.error e)
  | Except.ok w =>
    ([BuildEvent.loadBase]
        ++ (if needsConstruct then [BuildEvent.graphConstruction] else [])
        ++ [BuildEvent.sessionInit],
      Except.ok w)

/-- C3: with interpolation off, building with `max_length > 512` fails with the
configuration `ValueError`, raised before any graph construction; with
`max_length ≤ 512` no error is raised and the positional table is truncated to
exactly `max_length` rows (the stored table having its native 512 rows). -/
theorem maxLength_guard (cfg : Config) (posEmbed tokenEmbed : Mat) (rest : List Mat)
    (specialEmbed : Mat) (needsConstruct : Bool)
    (hni : cfg.interpolate_pos_embed = false) (hlen : posEmbed.length = 512) :
    (512 < cfg.max_length →
      (buildModel cfg posEmbed tokenEmbed rest specialEmbed needsConstruct).2 =
        Except.error
          "Max Length cannot be greater than 512 if interploate_pos_embed is turned off"
      ∧ BuildEvent.graphConstruction ∉
          (buildModel cfg posEmbed tokenEmbed rest specialEmbed needsConstruct).1)
    ∧ (cfg.max_length ≤ 512 →
      ∃ w, (buildModel cfg posEmbed tokenEmbed rest specialEmbed needsConstruct).2 =
          Except.ok w
        ∧ w.initParams.headI = tokenEmbed ++ specialEmbed ++ posEmbed.take cfg.max_length
        ∧ (posEmbed.take cfg.max_length).length = cfg.max_length) := by
  constructor
  · intro hml
    have hload : loadBaseModel cfg posEmbed tokenEmbed rest specialEmbed =
        Except.error
          "Max Length cannot be greater than 512 if interploate_pos_embed is turned off" := by
      rw [loadBaseModel, hni]
      rw [if_neg (by simp), if_pos hml]
    constructor
    · simp only [buildModel, hload]
    · simp only [buildModel, hload]
      intro hmem
      rw [List.mem_singleton] at hmem
      cases hmem
  · intro hml
    have hload : loadBaseModel cfg posEmbed tokenEmbed rest specialEmbed =
        Except.ok (spliceEmbeddings tokenEmbed specialEmbed
          (posEmbed.take cfg.max_length) rest) := by
      rw [loadBaseModel, hni]
      rw [if_neg (by simp), if_neg (by omega)]
    refine ⟨spliceEmbeddings tokenEmbed specialEmbed (posEmbed.take cfg.max_length) rest,
      ?_, rfl, ?_⟩
    · simp only [buildModel, hload]
    · rw [List.length_take, hlen]
      omega

/-- Concrete configuration for the `maxLength_guard` witness: no interpolation,
`max_length = 600`. -/
def c3cfg : Config := ⟨false, 600, 0, 1, false⟩

/-- A stored positional table with its native 512 rows. -/
def c3pos : Mat := List.replicate 512 []

/-- Closed instance of `maxLength_guard`: `max_length = 600` without
interpolation makes `_build_model` fail before graph construction. -/
theorem maxLength_guard_witness :
    (512 < c3cfg.max_length →
      (buildModel c3cfg c3pos [] [] [] true).2 =
        Except.error
          "Max Length cannot be greater than 512 if interploate_pos_embed is turned off"
      ∧ BuildEvent.graphConstruction ∉ (buildModel c3cfg c3pos [] [] [] true).1)
    ∧ (c3cfg.max_length ≤ 512 →
      ∃ w, (buildModel c3cfg c3pos [] [] [] true).2 = Except.ok w
        ∧ w.initParams.headI = ([] : Mat) ++ [] ++ c3pos.take c3cfg.max_length
        ∧ (c3pos.take c3cfg.max_length).length = c3cfg.max_length) :=
  maxLength_guard c3cfg c3pos [] [] [] true rfl (by rw [c3pos, List.length_replicate])

/-- Lines 430-432 of `_construct_graph`: the language-model loss coefficient
from the configuration, forced to `1.0` when no target dimensionality is
given. -/
def lmLossCoefUsed (cfg : Config) (targetDim : Option ℕ) : ℚ :=
  match targetDim with
  | none => 1
  | some _ => cfg.lm_loss_coef

/-- Line 433 of `_construct_graph`:
`compile_lm = (train and lm_loss_coef > 0) or self.require_lm`. -/
def compileLm (train : Bool) (lmLossCoef : ℚ) (requireLm : Bool) : Bool :=
  (train && decide (0 < lmLossCoef)) || requireLm

/-- The structural facts about one graph built by `_construct_graph` that the
claims quantify over: its mode, its heads, and the loss coefficient wired into
its loss expression. -/
structure GraphInfo where
  trainMode : Bool
  targetDim : Option ℕ
  lmCoef : ℚ
  hasLmHead : Bool
  hasTaskHead : Bool
deriving DecidableEq, Repr

/-- Embedding of the head/coefficient selection of `_construct_graph`
(base.py lines 410-527): the language-model head is compiled iff `compile_lm`,
the task head iff a target dimensionality is supplied. -/
def constructGraph (cfg : Config) (requireLm : Bool) (targetDim : Option ℕ)
    (train : Bool) : GraphInfo :=
  { trainMode := train
    targetDim := targetDim
    lmCoef := lmLossCoefUsed cfg targetDim
    hasLmHead := compileLm train (lmLossCoefUsed cfg targetDim) requireLm
    hasTaskHead := targetDim.isSome }

/-- The per-split encoded targets and target dimensionality computed by
`_training_loop` (base.py lines 156-171). -/
structure TrainingSetup where
  trainY : List (List ℚ)
  valY : List (List ℚ)
  targetDim : Option ℕ
deriving DecidableEq, Repr

/-- The label handling of `_training_loop` (base.py lines 162-171): with
`Y = None` each split gets a mock empty target per example and no target
dimensionality; otherwise the subclass label encoder — external, abstracted as
`fitTransform`/`transform`/`encDim` — is fit and applied. -/
def trainingSetup {α : Type} (Y : Option (List α)) (nTrain nVal : ℕ)
    (fitTransform : List α → List (List ℚ)) (transform : List α → List (List ℚ))
    (encDim : ℕ) : TrainingSetup :=
  match Y with
  | none =>
    { trainY := List.replicate nTrain []
      valY := List.replicate nVal []
      targetDim := none }
  | some ys =>
    { trainY := fitTransform ys
      valY := transform ys
      targetDim := some encDim }

/-- Composition of `finetune`, `_training_loop` and `_build_model`
(base.py lines 146-181): compute the training setup from the optional labels,
load the base model, then construct the training graph for the computed target
dimensionality. -/
def finetunePipeline {α : Type} (cfg : Config) (posEmbed tokenEmbed : Mat)
    (rest : List Mat) (specialEmbed : Mat) (requireLm : Bool) (Y : Option (List α))
    (nTrain nVal : ℕ) (fitTransform : List α → List (List ℚ))
    (transform : List α → List (List ℚ)) (encDim : ℕ) :
    Except String (TrainingSetup × GraphInfo) :=
  let setup := trainingSetup Y nTrain nVal fitTransform transform encDim
  match loadBaseModel cfg posEmbed tokenEmbed rest specialEmbed with
  | Except.error e => Except.error e
  | Except.ok _w => Except.ok (setup, constructGraph cfg requireLm setup.targetDim true)

/-- C7: calling `finetune` with `Y = None` raises no error: training proceeds in
language-model-only mode with an empty target for each example, the graph is
built with no task head (target dimensionality `None`), and the language-model
loss coefficient used in graph construction is forced to `1.0`. -/
theorem finetune_no_labels_lm_only {α : Type} (cfg : Config) (posEmbed tokenEmbed : Mat)
    (rest : List Mat) (specialEmbed : Mat) (requireLm : Bool) (nTrain nVal : ℕ)
    (fitTransform transform : List α → List (List ℚ)) (encDim : ℕ)
    (hload : cfg.interpolate_pos_embed = true ∨ cfg.max_length ≤ 512) :
    ∃ setup graph,
      finetunePipeline cfg posEmbed tokenEmbed rest specialEmbed requireLm
          (none : Option (List α)) nTrain nVal fitTransform transform encDim =
        Except.ok (setup, graph)
      ∧ setup.trainY = List.replicate nTrain []
      ∧ setup.valY = List.replicate nVal []
      ∧ setup.targetDim = none
      ∧ graph.hasTaskHead = false
      ∧ graph.lmCoef = 1 := by
  have hsetup : trainingSetup (none : Option (List α)) nTrain nVal fitTransform
      transform encDim =
      { trainY := List.replicate nTrain []
        valY := List.replicate nVal []
        targetDim := none } := rfl
  have hok : ∃ w, loadBaseModel cfg posEmbed tokenEmbed rest specialEmbed =
      Except.ok w := by
    rcases hload with hip | hml
    · exact ⟨_, by rw [loadBaseModel, if_pos hip]⟩
    · by_cases hip : cfg.interpolate_pos_embed
      · exact ⟨_, by rw [loadBaseModel, if_pos hip]⟩
      · exact ⟨_, by rw [loadBaseModel, if_neg hip, if_neg (by omega)]⟩
  obtain ⟨w, hw⟩ := hok
  refine ⟨trainingSetup (none : Option (List α)) nTrain nVal fitTransform transform encDim,
    constructGraph cfg requireLm none true, ?_, rfl, rfl, rfl, rfl, rfl⟩
  simp only [finetunePipeline, hw]
  rfl

/-- Closed instance of `finetune_no_labels_lm_only` at a concrete
configuration. -/
theorem finetune_no_labels_lm_only_witness :
    ∃ setup graph,
      finetunePipeline c2cfg [[3], [4]] [[1, 2]] [] [[5, 5]] false
          (none : Option (List ℕ)) 3 1 (fun _ => []) (fun _ => []) 2 =
        Except.ok (setup, graph)
      ∧ setup.trainY = List.replicate 3 []
      ∧ setup.valY = List.replicate 1 []
      ∧ setup.targetDim = none
      ∧ graph.hasTaskHead = false
      ∧ graph.lmCoef = 1 :=
  finetune_no_labels_lm_only c2cfg [[3], [4]] [[1, 2]] [] [[5, 5]] false 3 1
    (fun _ => []) (fun _ => []) 2 (Or.inr (by decide))

/-- The operations on a `BaseModel` instance that touch — or could touch — the
`require_lm` indicator.  In the source only `_initialize` (line 90, run at
construction and by `load`) assigns `False` and only `generate_text` (line 597)
assigns `True`; `finetune`, `predict`, `featurize` and `save` never assign it. -/
inductive ModelOp where
  | initRuntime
  | generateTextOp
  | finetuneOp
  | predictOp
  | featurizeOp
  | saveOp
deriving DecidableEq, Repr

/-- Effect of each operation on the `require_lm` field. -/
def requireLmAfter (requireLm : Bool) : ModelOp → Bool
  | ModelOp.initRuntime => false
  | ModelOp.generateTextOp => true
  | ModelOp.finetuneOp => requireLm
  | ModelOp.predictOp => requireLm
  | ModelOp.featurizeOp => requireLm
  | ModelOp.saveOp => requireLm

/-- C9: once `generate_text` has run, `require_lm` stays `True` under any
sequence of operations that does not include `_initialize`, and every later
graph rebuild — eval-mode prediction and featurization included — compiles the
language-model head. -/
theorem requireLm_sticky (s0 : Bool) (ops : List ModelOp)
    (h : ModelOp.initRuntime ∉ ops) :
    ops.foldl requireLmAfter (requireLmAfter s0 ModelOp.generateTextOp) = true
    ∧ ∀ cfg targetDim train,
        (constructGraph cfg
            (ops.foldl requireLmAfter (requireLmAfter s0 ModelOp.generateTextOp))
            targetDim train).hasLmHead = true := by
  have key : ∀ l : List ModelOp, ModelOp.initRuntime ∉ l →
      l.foldl requireLmAfter true = true := by
    intro l
    induction l with
    | nil => intro _; rfl
    | cons op l ih =>
      intro hno
      rw [List.foldl_cons]
      have hop : op ≠ ModelOp.initRuntime := by
        intro hc
        exact hno (by rw [hc]; exact List.mem_cons_self _ _)
      have hstep : requireLmAfter true op = true := by
        cases op
        · exact absurd rfl hop
        all_goals rfl
      rw [hstep]
      exact ih fun hmem => hno (List.mem_cons_of_mem _ hmem)
  have h1 : ops.foldl requireLmAfter (requireLmAfter s0 ModelOp.generateTextOp) = true := by
    rw [show requireLmAfter s0 ModelOp.generateTextOp = true from rfl]
    exact key ops h
  refine ⟨h1, ?_⟩
  intro cfg targetDim train
  rw [show (constructGraph cfg
      (ops.foldl requireLmAfter (requireLmAfter s0 ModelOp.generateTextOp))
      targetDim train).hasLmHead =
    compileLm train (lmLossCoefUsed cfg targetDim)
      (ops.foldl requireLmAfter (requireLmAfter s0 ModelOp.generateTextOp)) from rfl]
  rw [h1, compileLm, Bool.or_true]

/-- Closed instance of `requireLm_sticky`: after `generate_text`, an eval-mode
predict and a featurize still rebuild with the language-model head. -/
theorem requireLm_sticky_witness :
    [ModelOp.predictOp, ModelOp.featurizeOp].foldl requireLmAfter
        (requireLmAfter false ModelOp.generateTextOp) = true
    ∧ ∀ cfg targetDim train,
        (constructGraph cfg
            ([ModelOp.predictOp, ModelOp.featurizeOp].foldl requireLmAfter
              (requireLmAfter false ModelOp.generateTextOp))
            targetDim train).hasLmHead = true :=
  requireLm_sticky false [ModelOp.predictOp, ModelOp.featurizeOp] (by decide)

/-- Embedding of the decoding loop of `generate_text` (base.py lines 602-609).
`idxs` holds the remaining loop counter values `i`; `string` is the running
token sequence; `fed` records the array fed to `sess.run` at each iteration.
Each iteration formats `encoded` — the seed-only encoding produced at line 598,
which the source never updates — feeds it to the model, appends the sampled
token `class_idx[i]` (modelled as `(oracle i arr).getD i 0`) to `string`, and
stops early when the appended token equals the end-of-sequence token. -/
def genLoop (oracle : ℕ → ArrayOutput → List ℤ) (vocabSize maxLength : ℕ)
    (seedTokens : List ℤ) (eos : ℤ) :
    List ℕ → List ℤ → List ArrayOutput → List ℤ × List ArrayOutput
  | [], string, fed => (string, fed)
  | i :: rest, string, fed =>
    let arr := arrayFormat vocabSize maxLength [seedTokens]
    let tok := (oracle i arr).getD i 0
    let string1 := string ++ [tok]
    let fed1 := fed ++ [arr]
    if string1.getLast? = some eos then (string1, fed1)
    else genLoop oracle vocabSize maxLength seedTokens eos rest string1 fed1

/-- Embedding of `generate_text` (base.py lines 588-610).  The tokenizer is
external: `seedTokens` stands for `encoder._encode([seed_text]).token_ids[0]`
and `startTok`/`eos` for the start/classify special tokens.  `oracle i arr` is
the `class_idx` array returned by the session at iteration `i` on the fed
arrays (the temperature sampling happens inside the graph, so the randomness is
part of the oracle).  The loop counter runs over
`range(len(encoded.token_ids), max_length - 1)`, and `encoded.token_ids` is the
one-element batch, so it starts at `1` and performs `max_length - 2`
iterations at most. -/
def generateText (oracle : ℕ → ArrayOutput → List ℤ) (vocabSize maxLength : ℕ)
    (startTok eos : ℤ) (seedTokens : List ℤ) : List ℤ × List ArrayOutput :=
  genLoop oracle vocabSize maxLength seedTokens eos
    (List.range' 1 (maxLength - 1 - 1)) ([startTok] ++ seedTokens) []

/-- Modelled from the spec: the tokenizer `decode` (finetune/encoding.py, not
under src/) maps each token id to its text via the decoder `table` and
concatenates. -/
def decodeTokens (table : ℤ → List Char) (tokens : List ℤ) : List Char :=
  (tokens.map table).flatten

/-- The oracle used for the `generate_text` evaluation: every session run
returns the token `99` at every position. -/
def c4oracle : ℕ → ArrayOutput → List ℤ := fun _ _ => List.replicate 8 99

/-- C4 evaluated at a failing input (seed token `5`, `max_length = 5`,
vocabulary size `10`, start token `0`, end token `1`): every array fed to the
session is the seed-only encoding — three identical copies — even though the
running sequence grows to `[0, 5, 99, 99, 99]`, and the seed-only encoding is
not the encoding of the running sequence.  The running sequence is never
re-encoded into the model input. -/
theorem generateText_seed_only_input :
    (generateText c4oracle 10 5 0 1 [5]).2 = List.replicate 3 (arrayFormat 10 5 [[5]])
    ∧ (generateText c4oracle 10 5 0 1 [5]).1 = [0, 5, 99, 99, 99]
    ∧ arrayFormat 10 5 [[5]] ≠ arrayFormat 10 5 [[0, 5, 99]] := by
  refine ⟨by decide, by decide, by decide⟩

/-- Every array the decoding loop ever feeds to the session is the formatted
seed-only encoding, whatever the oracle samples: the code never re-encodes the
running sequence. -/
theorem generateText_model_input_constant (oracle : ℕ → ArrayOutput → List ℤ)
    (vocabSize maxLength : ℕ) (startTok eos : ℤ) (seedTokens : List ℤ) :
    ∀ a ∈ (generateText oracle vocabSize maxLength startTok eos seedTokens).2,
      a = arrayFormat vocabSize maxLength [seedTokens] := by
  have key : ∀ (idxs : List ℕ) (string : List ℤ) (fed : List ArrayOutput),
      (∀ a ∈ fed, a = arrayFormat vocabSize maxLength [seedTokens]) →
      ∀ a ∈ (genLoop oracle vocabSize maxLength seedTokens eos idxs string fed).2,
        a = arrayFormat vocabSize maxLength [seedTokens] := by
    intro idxs
    induction idxs with
    | nil => intro string fed hfed a ha; exact hfed a ha
    | cons i rest ih =>
      intro string fed hfed a ha
      rw [genLoop] at ha
      have hfed1 : ∀ b ∈ fed ++ [arrayFormat vocabSize maxLength [seedTokens]],
          b = arrayFormat vocabSize maxLength [seedTokens] := by
        intro b hb
        rcases List.mem_append.mp hb with hb | hb
        · exact hfed b hb
        · rw [List.mem_singleton] at hb
          exact hb
      by_cases hstop :
          (string ++ [(oracle i (arrayFormat vocabSize maxLength [seedTokens])).getD i 0]).getLast?
            = some eos
      · rw [if_pos hstop] at ha
        exact hfed1 a ha
      · rw [if_neg hstop] at ha
        exact ih _ _ hfed1 a ha
  intro a ha
  exact key _ _ _ (by intro b hb; cases hb) a ha

theorem decodeTokens_append (table : ℤ → List Char) (l1 l2 : List ℤ) :
    decodeTokens table (l1 ++ l2) = decodeTokens table l1 ++ decodeTokens table l2 := by
  rw [decodeTokens, decodeTokens, decodeTokens, List.map_append, List.flatten_append]

/-- The decoding loop only ever appends: its result extends the initial running
sequence by at most one sampled token per loop index. -/
theorem genLoop_extends (oracle : ℕ → ArrayOutput → List ℤ) (vocabSize maxLength : ℕ)
    (seedTokens : List ℤ) (eos : ℤ) (idxs : List ℕ) :
    ∀ (string : List ℤ) (fed : List ArrayOutput),
      ∃ samp : List ℤ,
        (genLoop oracle vocabSize maxLength seedTokens eos idxs string fed).1 =
          string ++ samp
        ∧ samp.length ≤ idxs.length := by
  induction idxs with
  | nil =>
    intro string fed
    exact ⟨[], by rw [genLoop, List.append_nil], by simp⟩
  | cons i rest ih =>
    intro string fed
    rw [genLoop]
    by_cases hstop :
        (string ++ [(oracle i (arrayFormat vocabSize maxLength [seedTokens])).getD i 0]).getLast?
          = some eos
    · rw [if_pos hstop]
      exact ⟨[(oracle i (arrayFormat vocabSize maxLength [seedTokens])).getD i 0], rfl,
        by simp⟩
    · rw [if_neg hstop]
      obtain ⟨samp, hsamp, hlen⟩ := ih
        (string ++ [(oracle i (arrayFormat vocabSize maxLength [seedTokens])).getD i 0]) _
      refine ⟨[(oracle i (arrayFormat vocabSize maxLength [seedTokens])).getD i 0] ++ samp,
        ?_, ?_⟩
      · rw [← List.append_assoc]
        exact hsamp
      · rw [List.length_append, List.length_cons]
        simp only [List.length_cons, List.length_nil]
        omega

/-- C5: for every seed (the empty one included), every `max_length` and every
oracle — in particular when the end-of-sequence token is never sampled — the
decoding loop of `generate_text` runs at most `max_length` iterations, and the
decoded return value starts with the decoded seed tokens (the start token
decodes to no text). -/
theorem generateText_terminates_and_starts_with_seed (oracle : ℕ → ArrayOutput → List ℤ)
    (vocabSize maxLength : ℕ) (startTok eos : ℤ) (seedTokens : List ℤ)
    (table : ℤ → List Char) (htable : table startTok = []) :
    (generateText oracle vocabSize maxLength startTok eos seedTokens).2.length ≤ maxLength
    ∧ ∃ rest : List Char,
        decodeTokens table
            (generateText oracle vocabSize maxLength startTok eos seedTokens).1 =
          decodeTokens table seedTokens ++ rest := by
  constructor
  · have key : ∀ (idxs : List ℕ) (string : List ℤ) (fed : List ArrayOutput),
        (genLoop oracle vocabSize maxLength seedTokens eos idxs string fed).2.length ≤
          fed.length + idxs.length := by
      intro idxs
      induction idxs with
      | nil =>
        intro string fed
        rw [genLoop]
        simp
      | cons i rest ih =>
        intro string fed
        rw [genLoop]
        by_cases hstop :
            (string ++
              [(oracle i (arrayFormat vocabSize maxLength [seedTokens])).getD i 0]).getLast?
              = some eos
        · rw [if_pos hstop]
          rw [List.length_append, List.length_cons]
          simp only [List.length_cons, List.length_nil]
          omega
        · rw [if_neg hstop]
          have := ih (string ++
            [(oracle i (arrayFormat vocabSize maxLength [seedTokens])).getD i 0])
            (fed ++ [arrayFormat vocabSize maxLength [seedTokens]])
          rw [List.length_append] at this
          simp only [List.length_cons, List.length_nil] at this ⊢
          omega
    have h0 := key (List.range' 1 (maxLength - 1 - 1)) ([startTok] ++ seedTokens) []
    rw [List.length_nil, List.length_range'] at h0
    calc (generateText oracle vocabSize maxLength startTok eos seedTokens).2.length
        ≤ 0 + (maxLength - 1 - 1) := h0
      _ ≤ maxLength := by omega
  · obtain ⟨samp, hsamp, _⟩ := genLoop_extends oracle vocabSize maxLength seedTokens eos
      (List.range' 1 (maxLength - 1 - 1)) ([startTok] ++ seedTokens) []
    refine ⟨decodeTokens table samp, ?_⟩
    rw [show (generateText oracle vocabSize maxLength startTok eos seedTokens).1 =
        ([startTok] ++ seedTokens) ++ samp from hsamp]
    rw [decodeTokens_append, decodeTokens_append]
    have hstart : decodeTokens table [startTok] = [] := by
      rw [decodeTokens, List.map_cons, List.map_nil, htable]
      rfl
    rw [hstart, List.nil_append]

/-- Closed instance of `generateText_terminates_and_starts_with_seed` at the empty
seed with an oracle that never samples the end token. -/
theorem generateText_terminates_witness :
    (generateText (fun _ _ => [3, 3, 3, 3]) 7 4 0 1 []).2.length ≤ 4
    ∧ ∃ rest : List Char,
        decodeTokens (fun t => if t = 0 then [] else [Char.ofNat 97])
            (generateText (fun _ _ => [3, 3, 3, 3]) 7 4 0 1 []).1 =
          decodeTokens (fun t => if t = 0 then [] else [Char.ofNat 97]) [] ++ rest :=
  generateText_terminates_and_starts_with_seed (fun _ _ => [3, 3, 3, 3]) 7 4 0 1 []
    (fun t => if t = 0 then [] else [Char.ofNat 97]) (by decide)

/-- The pickled subset of a model object (`__getstate__`, base.py lines
657-668).  `load_from_file` models `_load_from_file`: Python `False` is `none`,
a path string is `some`.  (`target_type` only exists on subclasses and is
serialized unchanged; it is omitted.) -/
structure SerializedState (E C : Type) where
  label_encoder : Option E
  target_dim : Option ℕ
  load_from_file : Option String
  config : C
deriving DecidableEq, Repr

/-- The in-memory fields of a model that `save` can read or write. -/
structure ModelState (E C : Type) where
  label_encoder : Option E
  target_dim : Option ℕ
  load_from_file : Option String
  config : C
  is_trained : Bool
deriving DecidableEq, Repr

/-- Embedding of `__getstate__` (base.py lines 657-668): restrict the object to
the serialized fields. -/
def getstate {E C : Type} (st : ModelState E C) : SerializedState E C :=
  { label_encoder := st.label_encoder
    target_dim := st.target_dim
    load_from_file := st.load_from_file
    config := st.config }

/-- What exists on disk at a given path. -/
inductive PathKind where
  | absent
  | directory
  | file
deriving DecidableEq, Repr

/-- Embedding of `save` (base.py lines 670-702).  `fs` describes the
filesystem, `abspath` is `os.path.abspath`.  With `path = None` the method
returns immediately.  Otherwise `_load_from_file` is set to the absolute path
BEFORE the existence check and the pickle — so the pickled copy records it —
and reset to `False` afterwards; a path occupied by a non-directory raises a
`ValueError`.  The returned pair is the in-memory state after the call and the
pickled auxiliary state, when one was written. -/
def save {E C : Type} (fs : String → PathKind) (abspath : String → String)
    (st : ModelState E C) (path : Option String) :
    Except String (ModelState E C × Option (SerializedState E C)) :=
  match path with
  | none => Except.ok (st, none)
  | some p =>
    let ap := abspath p
    let st1 := { st with load_from_file := some ap }
    match fs ap with
    | PathKind.file =>
      Except.error "Invalid save location: a file already exists at this location."
    | _ =>
      Except.ok ({ st1 with load_from_file := none }, some (getstate st1))

/-- C10: after a successful `save(path)`, the in-memory `_load_from_file` is
`False` while the pickled auxiliary state records the absolute save path in
that field; no other serialized field (label encoder, target dimensionality,
configuration) is modified, in memory or in the pickle. -/
theorem save_marker_semantics {E C : Type} (fs : String → PathKind)
    (abspath : String → String) (st : ModelState E C) (p : String)
    (st1 : ModelState E C) (pk : SerializedState E C)
    (h : save fs abspath st (some p) = Except.ok (st1, some pk)) :
    st1.load_from_file = none
    ∧ pk.load_from_file = some (abspath p)
    ∧ pk.label_encoder = st.label_encoder
    ∧ pk.target_dim = st.target_dim
    ∧ pk.config = st.config
    ∧ st1.label_encoder = st.label_encoder
    ∧ st1.target_dim = st.target_dim
    ∧ st1.config = st.config
    ∧ st1.is_trained = st.is_trained := by
  rw [save] at h
  cases hfs : fs (abspath p) with
  | absent =>
    simp only [hfs] at h
    rw [Except.ok.injEq, Prod.mk.injEq, Option.some.injEq] at h
    obtain ⟨h1, h2⟩ := h
    subst h1
    rw [← h2]
    exact ⟨rfl, rfl, rfl, rfl, rfl, rfl, rfl, rfl, rfl⟩
  | directory =>
    simp only [hfs] at h
    rw [Except.ok.injEq, Prod.mk.injEq, Option.some.injEq] at h
    obtain ⟨h1, h2⟩ := h
    subst h1
    rw [← h2]
    exact ⟨rfl, rfl, rfl, rfl, rfl, rfl, rfl, rfl, rfl⟩
  | file =>
    simp only [hfs] at h
    cases h

/-- Closed instance of `save_marker_semantics` at a concrete model state and a
one-directory filesystem. -/
theorem save_marker_semantics_witness :
    (⟨some 4, some 2, none, 9, true⟩ : ModelState ℕ ℕ).load_from_file = none
    ∧ (⟨some 4, some 2, some "/m", 9⟩ : SerializedState ℕ ℕ).load_from_file =
        some ((fun s => String.append "/" s) "m")
    ∧ (⟨some 4, some 2, some "/m", 9⟩ : SerializedState ℕ ℕ).label_encoder =
        (⟨some 4, some 2, none, 9, true⟩ : ModelState ℕ ℕ).label_encoder
    ∧ (⟨some 4, some 2, some "/m", 9⟩ : SerializedState ℕ ℕ).target_dim =
        (⟨some 4, some 2, none, 9, true⟩ : ModelState ℕ ℕ).target_dim
    ∧ (⟨some 4, some 2, some "/m", 9⟩ : SerializedState ℕ ℕ).config =
        (⟨some 4, some 2, none, 9, true⟩ : ModelState ℕ ℕ).config
    ∧ (⟨some 4, some 2, none, 9, true⟩ : ModelState ℕ ℕ).label_encoder =
        (⟨some 4, some 2, none, 9, true⟩ : ModelState ℕ ℕ).label_encoder
    ∧ (⟨some 4, some 2, none, 9, true⟩ : ModelState ℕ ℕ).target_dim =
        (⟨some 4, some 2, none, 9, true⟩ : ModelState ℕ ℕ).target_dim
    ∧ (⟨some 4, some 2, none, 9, true⟩ : ModelState ℕ ℕ).config =
        (⟨some 4, some 2, none, 9, true⟩ : ModelState ℕ ℕ).config
    ∧ (⟨some 4, some 2, none, 9, true⟩ : ModelState ℕ ℕ).is_trained =
        (⟨some 4, some 2, none, 9, true⟩ : ModelState ℕ ℕ).is_trained :=
  save_marker_semantics (fun _ => PathKind.directory) (fun s => String.append "/" s)
    ⟨some 4, some 2, none, 9, true⟩ "m" ⟨some 4, some 2, none, 9, true⟩
    ⟨some 4, some 2, some "/m", 9⟩ rfl

end Finetune
